import Mathlib

/-!
Shallow embedding of the law-scraper pipeline (class LawScraper in
src/src/scaper.py) together with proofs about its claims.

Conventions of the embedding:
* Pure string manipulation (identifier extraction, sorting keys, filename
  sanitisation, path joining) is translated function for function.
* The Python regular expression search, the stable builtin sort, and the
  CPython string methods are translated by equivalent executable Lean
  functions; each translation is documented at its definition.
* HTML documents (produced by the external BeautifulSoup collaborator) are
  modelled as a tree of element and text nodes; the find and find_all
  calls of the source become depth-first searches over descendants.
* The asynchronous downloader is modelled per task as a function from the
  outcome of each transfer attempt to the trace of observable events
  (gate acquisition and release, transfer attempts, backoff sleeps, file
  writes, log lines) plus a terminal result.  The shared counting
  semaphore is modelled at schedule level by event lists tagged with task
  identifiers.
-/

/- ------------------------------------------------------------------ -/
/- Character and string utilities                                      -/
/- ------------------------------------------------------------------ -/

/-- Replace every occurrence of character `a` by `b`; this is the meaning
of the CPython call `str.replace(a, b)` for single characters. -/
def replaceChar (a b : Char) : List Char → List Char
  | [] => []
  | c :: cs => (if c = a then b else c) :: replaceChar a b cs

/-- ASCII decimal digit test, the character class `\d` of the pattern in
`extract_laws_identifier` (the file names at play are ASCII). -/
def isDigitCh (c : Char) : Bool :=
  '0' ≤ c && c ≤ '9'

/-- ASCII letter test, the character class `[A-Za-z]` of the pattern in
`extract_laws_identifier`. -/
def isLetterCh (c : Char) : Bool :=
  ('A' ≤ c && c ≤ 'Z') || ('a' ≤ c && c ≤ 'z')

/-- Python `str.strip()`: remove whitespace from both ends. -/
def pyStrip (s : List Char) : List Char :=
  ((s.dropWhile Char.isWhitespace).reverse.dropWhile Char.isWhitespace).reverse

/-- String version of `pyStrip`. -/
def pyStripStr (s : String) : String :=
  ⟨pyStrip s.data⟩

/-- Does `pat` occur at the head of `s`? -/
def leadsWith : List Char → List Char → Bool
  | [], _ => true
  | _ :: _, [] => false
  | a :: as, b :: bs => (a = b) && leadsWith as bs

/-- Does `pat` occur anywhere inside `s`?  This is the meaning of the
Python membership test `pat in s` on strings. -/
def hasSubstr (pat : List Char) : List Char → Bool
  | [] => pat.isEmpty
  | c :: cs => leadsWith pat (c :: cs) || hasSubstr pat cs

/-- Numeric value of a decimal digit string, the meaning of Python
`int(s)` on the all-digit identifiers produced by the extraction. -/
def natOfDigits (s : List Char) : Nat :=
  s.foldl (fun v c => v * 10 + (c.toNat - '0'.toNat)) 0

/- ------------------------------------------------------------------ -/
/- Identifier and ordering utility (LawScraper.extract_laws_identifier  -/
/- and LawScraper.sort_files)                                           -/
/- ------------------------------------------------------------------ -/

/-- The segment of `core` after its last underscore, provided at least one
underscore occurs; `none` otherwise. -/
def afterLastUnderscore (core : List Char) : Option (List Char) :=
  let r := core.reverse
  if (r.dropWhile (fun c => !(c = '_'))).isEmpty then none
  else some ((r.takeWhile (fun c => !(c = '_'))).reverse)

/-- Is `s` a valid identifier group, that is a match for `\d+|[A-Za-z]`:
either a nonempty run of digits or a single letter? -/
def validIdent (s : List Char) : Bool :=
  (!s.isEmpty && s.all isDigitCh) ||
    (match s with
     | [c] => isLetterCh c
     | _ => false)

/-- `LawScraper.extract_laws_identifier`: the source applies
`re.search` with the pattern `_(\d+|[A-Za-z])\.json$` and returns group 1
or `None`.  Because the pattern is anchored at the end and its group can
contain no underscore, the search succeeds exactly when the file name
ends in `.json` and the segment between the last underscore and that
suffix is a nonempty digit run or a single letter; the group is then that
segment.  This function computes precisely that. -/
def extract_laws_identifier (file_name : String) : Option String :=
  let cs := file_name.data
  if ".json".data.isSuffixOf cs then
    match afterLastUnderscore (cs.take (cs.length - 5)) with
    | some seg => if validIdent seg then some ⟨seg⟩ else none
    | none => none
  else none

/-- The sorting key produced by the inner `sort_key` of
`LawScraper.sort_files`: the Python tuples `(0, identifier)`,
`(1, int(identifier))` and `(float('inf'), '')`. -/
inductive SortKey where
  | alpha (s : List Char)
  | num (n : Nat)
  | inf
deriving DecidableEq

/-- The inner `sort_key` function of `LawScraper.sort_files`.  The
`isalpha` test of the source holds exactly for the single-letter
identifiers, every other extracted identifier being a digit run fed to
`int`. -/
def sort_key (file_name : String) : SortKey :=
  match extract_laws_identifier file_name with
  | none => .inf
  | some ident =>
      if !ident.data.isEmpty && ident.data.all isLetterCh then .alpha ident.data
      else .num (natOfDigits ident.data)

/-- Lexicographic comparison of character lists by code point, the
comparison Python applies to the string components of the sort keys. -/
def charListLe : List Char → List Char → Bool
  | [], _ => true
  | _ :: _, [] => false
  | a :: as, b :: bs => if a < b then true else if b < a then false else charListLe as bs

/-- Comparison of sort keys, mirroring the comparison of the Python
tuples `(0, str)`, `(1, int)` and `(inf, '')`. -/
def keyLe : SortKey → SortKey → Bool
  | .alpha s, .alpha t => charListLe s t
  | .alpha _, .num _ => true
  | .alpha _, .inf => true
  | .num _, .alpha _ => false
  | .num m, .num n => m ≤ n
  | .num _, .inf => true
  | .inf, .inf => true
  | .inf, _ => false

/-- The ordering relation on file names induced by their sort keys. -/
def fileLe (a b : String) : Prop :=
  keyLe (sort_key a) (sort_key b) = true

instance : DecidableRel fileLe := fun a b =>
  instDecidableEqBool (keyLe (sort_key a) (sort_key b)) true

/-- `LawScraper.sort_files`: the source calls the builtin stable sort
`sorted(files, key=sort_key)`.  A stable sort is characterised uniquely
by its comparison, so insertion sort with the same total preorder is the
same function. -/
def sort_files (files : List String) : List String :=
  List.insertionSort fileLe files

/- ------------------------------------------------------------------ -/
/- HTML document model (the BeautifulSoup collaborator)                -/
/- ------------------------------------------------------------------ -/

/-- A parsed HTML fragment: an element with a tag name, an attribute
list and children, or a text node. -/
inductive HNode where
  | elem (tag : String) (attrs : List (String × String)) (children : List HNode)
  | text (s : String)

/-- First value bound to `key` in an attribute list. -/
def attrOf (attrs : List (String × String)) (key : String) : Option String :=
  match attrs with
  | [] => none
  | (k, v) :: rest => if k = key then some v else attrOf rest key

/-- Attribute lookup on a node; text nodes carry no attributes. -/
def nodeAttr (n : HNode) (key : String) : Option String :=
  match n with
  | .elem _ attrs _ => attrOf attrs key
  | .text _ => none

mutual

/-- The node itself followed by its matching descendants, in document
order (depth first). -/
def matchingHere (p : String → List (String × String) → Bool) : HNode → List HNode
  | .text _ => []
  | .elem tag attrs cs =>
      (if p tag attrs then [HNode.elem tag attrs cs] else []) ++ matchingList p cs

/-- Matching nodes of a forest, in document order. -/
def matchingList (p : String → List (String × String) → Bool) : List HNode → List HNode
  | [] => []
  | c :: cs => matchingHere p c ++ matchingList p cs

end

/-- Matching proper descendants of a node, in document order.  The
BeautifulSoup methods `find` and `find_all` search descendants only. -/
def matchingDesc (p : String → List (String × String) → Bool) (n : HNode) : List HNode :=
  match n with
  | .text _ => []
  | .elem _ _ cs => matchingList p cs

/-- `node.find_all(tag)`. -/
def findAllTag (n : HNode) (t : String) : List HNode :=
  matchingDesc (fun tag _ => tag = t) n

/-- `node.find(tag)`. -/
def findTag (n : HNode) (t : String) : Option HNode :=
  (findAllTag n t).head?

/-- `item.find('a', href=True)`: first descendant anchor carrying an
`href` attribute. -/
def findAnchorHref (n : HNode) : Option HNode :=
  (matchingDesc (fun tag attrs => tag = "a" && (attrOf attrs "href").isSome) n).head?

/-- The filter `lambda t: t and 'PDF' in t` applied by the source to the
`title` attribute: an absent attribute is `None` (falsy), the empty
string is falsy, otherwise the substring test runs. -/
def pdfTitleFilter (t : Option String) : Bool :=
  match t with
  | none => false
  | some s => !s.data.isEmpty && hasSubstr "PDF".data s.data

/-- `item.find('a', href=True, title=lambda t: t and 'PDF' in t)`. -/
def findPdfAnchor (n : HNode) : Option HNode :=
  (matchingDesc
    (fun tag attrs => tag = "a" && (attrOf attrs "href").isSome
      && pdfTitleFilter (attrOf attrs "title")) n).head?

mutual

/-- `node.text`: concatenation of all text descendants in order. -/
def nodeText : HNode → String
  | .text s => s
  | .elem _ _ cs => forestText cs

/-- Concatenated text of a forest. -/
def forestText : List HNode → String
  | [] => ""
  | c :: cs => nodeText c ++ forestText cs

end

/- ------------------------------------------------------------------ -/
/- Record extraction (LawScraper.home_page_list and                    -/
/- LawScraper.fetch_law_details)                                       -/
/- ------------------------------------------------------------------ -/

/-- One catalogued entry as built by `fetch_law_details`; field names
follow the dictionary keys of the source. -/
structure DocumentRecord where
  webpage_link : String
  title : String
  description : String
  pdf_link : Option String
deriving DecidableEq

/-- Outcome of the body of the `for item in table_items` loop of
`fetch_law_details` on one item: either the item is skipped (no anchor
with `href`), or a record is appended, or the subscript
`law_link_tag.find('abbr')['title']` raises `KeyError` because the
annotation element lacks a `title` attribute. -/
inductive ItemOutcome where
  | skip
  | record (r : DocumentRecord)
  | keyError
deriving DecidableEq

/-- The loop body of `LawScraper.fetch_law_details` for a single `p`
item.  `urljoin` is the resolution function of the external
`urllib.parse` collaborator, passed in abstractly; `base` is
`self.BASE_URL`. -/
def process_item (urljoin : String → String → String) (base : String)
    (item : HNode) : ItemOutcome :=
  match findAnchorHref item with
  | none => .skip
  | some lawTag =>
      let href := (nodeAttr lawTag "href").getD ""
      let title := pyStripStr (nodeText lawTag)
      let pdf : Option String :=
        (findPdfAnchor item).map fun tag => urljoin base ((nodeAttr tag "href").getD "")
      match findTag lawTag "abbr" with
      | some ab =>
          match nodeAttr ab "title" with
          | none => .keyError
          | some d => .record ⟨urljoin base href, title, d, pdf⟩
      | none => .record ⟨urljoin base href, title, "", pdf⟩

/-- The whole item loop of `fetch_law_details`: records of the items in
page order; `none` when some item raised, discarding the list. -/
def fetch_law_details_records (urljoin : String → String → String) (base : String)
    (items : List HNode) : Option (List DocumentRecord) :=
  items.foldr
    (fun item acc =>
      match process_item urljoin base item with
      | .skip => acc
      | .keyError => none
      | .record r => acc.map (r :: ·))
    (some [])

/-- Class attribute `SEMAPHORE_LIMIT` of `LawScraper`: the default gate
capacity. -/
def SEMAPHORE_LIMIT : Nat := 10

/-- Class attribute `DELAY_BETWEEN_LAWS` of `LawScraper`: the default
pacing delay in seconds. -/
def DELAY_BETWEEN_LAWS : Nat := 5

/-- Outcome of one `session.get` call inside `download_single_pdf`.
`resp` is a received HTTP response.  `osError` is an
`aiohttp.ClientOSError` (connection reset and kindred transport OS
errors), the only exception class the retry branch catches.  `timeout`
is the `asyncio.TimeoutError` raised when the 60 second total timeout
elapses; that class is not a subclass of `aiohttp.ClientOSError`, so it
reaches only the generic `except Exception` branch.  `otherError` is any
other exception. -/
inductive GetOutcome where
  | resp (code : Nat) (body : String)
  | osError
  | timeout
  | otherError
deriving DecidableEq

/-- Observable events of one download task, in order of occurrence:
semaphore acquisition and release, the start of a transfer attempt
(tagged with its `retries` value), the write of the destination file,
and the four print statements of the source. -/
inductive Ev where
  | acquire
  | release
  | getAttempt (n : Nat)
  | writeFile (body : String)
  | logStatusFail (code : Nat)
  | logRetry (n : Nat)
  | sleepBackoff (secs : Nat)
  | logPermFail
  | logUnexpected
deriving DecidableEq

/-- Terminal state of one download task, the states of the spec
machine: `succeeded` after a status 200 body write, `permanentlyFailed`
after a non-200 status or an exhausted retry budget, `unexpectedError`
after the generic exception handler ran. -/
inductive TaskResult where
  | succeeded
  | permanentlyFailed
  | unexpectedError
deriving DecidableEq

/-- Helper for the recursive core of `download_single_pdf`: `left` is
the number of retries still allowed, kept equal to `5 - retries` by the
wrapper below.  The recursion is structural on `left`, which makes the
function evaluable inside the kernel; the branch taken when `left = 0`
is the branch the source takes when `retries < max_retries` fails. -/
def download_go (b : Nat → GetOutcome) : Nat → Nat → List Ev × TaskResult
  | left, retries =>
    let rest : List Ev × TaskResult :=
      match b retries with
      | .resp code body =>
          if code = 200 then ([.writeFile body], .succeeded)
          else ([.logStatusFail code], .permanentlyFailed)
      | .osError =>
          match left with
          | l + 1 =>
              let sub := download_go b l (retries + 1)
              ([.logRetry (retries + 1), .sleepBackoff (2 ^ retries)] ++ sub.1, sub.2)
          | 0 => ([.logPermFail], .permanentlyFailed)
      | .timeout => ([.logUnexpected], .unexpectedError)
      | .otherError => ([.logUnexpected], .unexpectedError)
    (.acquire :: .getAttempt retries :: rest.1 ++ [.release], rest.2)

/-- The recursive core of `LawScraper.download_single_pdf`, specialised
to `max_retries = 5`: the recursive call on line 373 of the source
passes only `retries + 1` and therefore always reinstates the default
`max_retries = 5`, so from the second frame on the budget is fixed at 5
and the retry guard `retries < 5` is exactly `0 < 5 - retries`.
`b n` is the outcome of the transfer attempt made with `retries = n`.
The returned list is the event trace of the frame and of every frame it
spawns; note that the semaphore is released only when the frame exits,
after any recursive retry frames have finished, because the recursive
call stands inside the `async with semaphore` block. -/
def download_single_pdf_rec (b : Nat → GetOutcome) (retries : Nat) :
    List Ev × TaskResult :=
  download_go b (5 - retries) retries

/-- `LawScraper.download_single_pdf` with explicit `retries` and
`max_retries` arguments; only the first frame consults the caller
supplied `max_retries`, every deeper frame runs
`download_single_pdf_rec`. -/
def download_single_pdf (b : Nat → GetOutcome) (retries : Nat) (max_retries : Nat) :
    List Ev × TaskResult :=
  let rest : List Ev × TaskResult :=
    match b retries with
    | .resp code body =>
        if code = 200 then ([.writeFile body], .succeeded)
        else ([.logStatusFail code], .permanentlyFailed)
    | .osError =>
        if retries < max_retries then
          let sub := download_single_pdf_rec b (retries + 1)
          ([.logRetry (retries + 1), .sleepBackoff (2 ^ retries)] ++ sub.1, sub.2)
        else ([.logPermFail], .permanentlyFailed)
    | .timeout => ([.logUnexpected], .unexpectedError)
    | .otherError => ([.logUnexpected], .unexpectedError)
  (.acquire :: .getAttempt retries :: rest.1 ++ [.release], rest.2)

/-- Number of transfer attempts recorded in a trace. -/
def attemptsOf (tr : List Ev) : Nat :=
  tr.countP fun e => match e with | .getAttempt _ => true | _ => false

/-- Number of semaphore acquisitions recorded in a trace. -/
def acquiresOf (tr : List Ev) : Nat :=
  tr.countP fun e => match e with | .acquire => true | _ => false

/-- Number of semaphore releases recorded in a trace. -/
def releasesOf (tr : List Ev) : Nat :=
  tr.countP fun e => match e with | .release => true | _ => false

/-- Number of destination file writes recorded in a trace. -/
def writesOf (tr : List Ev) : Nat :=
  tr.countP fun e => match e with | .writeFile _ => true | _ => false

/-- The backoff sleep durations of a trace, in order. -/
def sleepsOf (tr : List Ev) : List Nat :=
  tr.filterMap fun e => match e with | .sleepBackoff n => some n | _ => none

/-- Contribution of one event to the number of gate slots the task
holds. -/
def gateDelta (e : Ev) : Int :=
  match e with
  | .acquire => 1
  | .release => -1
  | _ => 0

/-- Gate slots held after a trace, starting from `d` held slots. -/
def heldFrom (d : Int) (tr : List Ev) : Int :=
  tr.foldl (fun a e => a + gateDelta e) d

/-- Gate slots held after a whole trace. -/
def heldAfter (tr : List Ev) : Int :=
  heldFrom 0 tr

/-- Does the running number of held slots stay nonnegative along the
trace when starting from `d` held slots? -/
def gateNonnegFrom (d : Int) : List Ev → Bool
  | [] => true
  | e :: es => (0 ≤ d + gateDelta e) && gateNonnegFrom (d + gateDelta e) es

/- ------------------------------------------------------------------ -/
/- The admission gate as a shared resource: schedules                  -/
/- ------------------------------------------------------------------ -/

/-- One gate operation of an interleaved run: the identifier of the task
performing it and `true` for an acquisition, `false` for a release. -/
def GateOp : Type := Nat × Bool

/-- Slots held by task `t` after the schedule `s`. -/
def heldBy (s : List GateOp) (t : Nat) : Int :=
  ((s.filter fun e => e.1 = t).map fun e => if e.2 then (1 : Int) else -1).sum

/-- Total slots held after the schedule `s`; the counting semaphore of
the source keeps this below its capacity at every instant. -/
def totalHeld (s : List GateOp) : Int :=
  (s.map fun e => if e.2 then (1 : Int) else -1).sum

/-- Number of distinct tasks among `ids` holding at least one slot after
the schedule `s`. -/
def holdersCount (s : List GateOp) (ids : Finset Nat) : Nat :=
  (ids.filter fun t => 0 < heldBy s t).card

/- ------------------------------------------------------------------ -/
/- Filenames, destination paths, task construction                     -/
/- ------------------------------------------------------------------ -/

/-- `LawScraper.sanitize_filename`:
`file_name.replace("/", "_").replace("\\", "_")`. -/
def sanitize_filename (file_name : String) : String :=
  ⟨replaceChar '\\' '_' (replaceChar '/' '_' file_name.data)⟩

/-- `os.path.join` for two components under POSIX rules: an absolute
second component wins, otherwise the parts are glued with exactly one
separator. -/
def pathJoin (a b : String) : String :=
  if b.data.head? = some '/' then b
  else if a = "" || a.data.getLast? = some '/' then a ++ b
  else a ++ "/" ++ b

/-- Destination path of one record inside one group, as assembled by
`download_all_pdfs`:
`os.path.join(os.path.join(PDF_DIR, identifier), sanitize_filename(title) + ".pdf")`. -/
def destinationPath (pdf_dir ident title : String) : String :=
  pathJoin (pathJoin pdf_dir ident) (sanitize_filename title ++ ".pdf")

/-- One download task as submitted by `download_all_pdfs`: destination
path and the `pdf_link` field of the record (which may be absent, the
source applies no filter). -/
structure DLTask where
  path : String
  url : Option String
deriving DecidableEq

/-- The task list `tasks = [ ... for item in content]` built by
`download_all_pdfs` for one group: one task per record of the loaded
group content, each a `download_single_pdf` call on the sanitised title
path and the `pdf_link` of the record. -/
def tasksForGroup (pdf_dir ident : String) (content : List DocumentRecord) :
    List DLTask :=
  content.map fun item =>
    ⟨destinationPath pdf_dir ident item.title, item.pdf_link⟩

/-- All destination paths of a run, groups given as pairs of identifier
and record titles. -/
def allDestPaths (pdf_dir : String) (groups : List (String × List String)) :
    List String :=
  groups.flatMap fun g => g.2.map fun t => destinationPath pdf_dir g.1 t

/- ------------------------------------------------------------------ -/
/- Group loop of download_all_pdfs: processing order and pacing        -/
/- ------------------------------------------------------------------ -/

/-- Group-level events of `download_all_pdfs`: the processing of one
group file and the pacing sleep between groups. -/
inductive RunEv where
  | group (name : String)
  | pacing (secs : Nat)
deriving DecidableEq

/-- The `for index, law in enumerate(sort_law)` loop of
`download_all_pdfs`: each group is processed, and
`await asyncio.sleep(DELAY_BETWEEN_LAWS)` runs exactly when
`index < len(sort_law) - 1`, that is after every group except the
last. -/
def groupLoop (delay : Nat) : List String → List RunEv
  | [] => []
  | [g] => [.group g]
  | g :: g2 :: gs => .group g :: .pacing delay :: groupLoop delay (g2 :: gs)

/-- The group-level trace of `LawScraper.download_all_pdfs`: the listed
group files are sorted with `sort_files` and then processed in that
order with pacing in between. -/
def download_all_pdfs_trace (laws : List String) (delay : Nat) : List RunEv :=
  groupLoop delay (sort_files laws)

/-- The group names of a group-level trace, in processing order. -/
def groupsOf (tr : List RunEv) : List String :=
  tr.filterMap fun e => match e with | .group g => some g | _ => none

/-- The pacing delays of a group-level trace. -/
def pacingsOf (tr : List RunEv) : List Nat :=
  tr.filterMap fun e => match e with | .pacing d => some d | _ => none

/- ------------------------------------------------------------------ -/
/- Process-outcome model of start_download                             -/
/- ------------------------------------------------------------------ -/

theorem heldFrom_append (d : Int) (a c : List Ev) :
    heldFrom d (a ++ c) = heldFrom (heldFrom d a) c := by
  simp [heldFrom, List.foldl_append]

theorem heldFrom_eq (d : Int) (tr : List Ev) :
    heldFrom d tr = d + heldAfter tr := by
  induction tr generalizing d with
  | nil => simp [heldFrom, heldAfter]
  | cons e es ih =>
      simp only [heldFrom, heldAfter, List.foldl_cons] at *
      rw [ih, ih (0 + gateDelta e)]
      ring

theorem gateNonnegFrom_append (d : Int) (a c : List Ev) :
    gateNonnegFrom d (a ++ c)
      = (gateNonnegFrom d a && gateNonnegFrom (heldFrom d a) c) := by
  induction a generalizing d with
  | nil => simp [gateNonnegFrom, heldFrom]
  | cons e es ih =>
      have hh : heldFrom d (e :: es) = heldFrom (d + gateDelta e) es := by
        simp [heldFrom]
      simp only [List.cons_append, gateNonnegFrom, List.append_eq, ih, hh,
        Bool.and_assoc]

theorem gateNonnegFrom_mono {d d' : Int} (h : d ≤ d') (tr : List Ev)
    (hd : gateNonnegFrom d tr = true) : gateNonnegFrom d' tr = true := by
  induction tr generalizing d d' with
  | nil => simp [gateNonnegFrom]
  | cons e es ih =>
      simp only [gateNonnegFrom, Bool.and_eq_true, decide_eq_true_eq] at *
      exact ⟨by omega, ih (by omega) hd.2⟩


/-- Every run of the recursive core makes at least one transfer
attempt. -/
theorem download_go_attempts_pos (b : Nat → GetOutcome) :
    ∀ left retries, 1 ≤ attemptsOf (download_go b left retries).1 := by
  intro left
  induction left with
  | zero =>
      intro r
      cases hb : b r <;>
        simp [download_go, hb, attemptsOf, List.countP_cons, List.countP_append] <;>
        split <;> simp [List.countP_cons]
  | succ l ih =>
      intro r
      cases hb : b r <;>
        simp [download_go, hb, attemptsOf, List.countP_cons, List.countP_append] <;>
        split <;> simp [List.countP_cons]

/-- The recursive core makes at most `left + 1` transfer attempts. -/
theorem download_go_attempts_le (b : Nat → GetOutcome) :
    ∀ left retries, attemptsOf (download_go b left retries).1 ≤ left + 1 := by
  intro left
  induction left with
  | zero =>
      intro r
      cases hb : b r <;>
        simp [download_go, hb, attemptsOf, List.countP_cons, List.countP_append] <;>
        split <;> simp [List.countP_cons]
  | succ l ih =>
      intro r
      cases hb : b r
      case osError =>
        have := ih (r + 1)
        simp [download_go, hb, attemptsOf, List.countP_cons,
          List.countP_append] at this ⊢
        omega
      all_goals
        simp [download_go, hb, attemptsOf, List.countP_cons, List.countP_append] <;>
          split <;> simp [List.countP_cons]

/-- Acquisitions equal transfer attempts: each recursion frame acquires
the gate exactly once, right before its single transfer attempt. -/
theorem download_go_acquires (b : Nat → GetOutcome) :
    ∀ left retries,
      acquiresOf (download_go b left retries).1
        = attemptsOf (download_go b left retries).1 := by
  intro left
  induction left with
  | zero =>
      intro r
      cases hb : b r <;>
        simp [download_go, hb, attemptsOf, acquiresOf, List.countP_cons,
          List.countP_append] <;>
        split <;> simp [List.countP_cons]
  | succ l ih =>
      intro r
      cases hb : b r
      case osError =>
        have := ih (r + 1)
        simp [download_go, hb, attemptsOf, acquiresOf, List.countP_cons,
          List.countP_append] at this ⊢
        omega
      all_goals
        simp [download_go, hb, attemptsOf, acquiresOf, List.countP_cons,
          List.countP_append] <;>
        split <;> simp [List.countP_cons]

/-- Releases equal transfer attempts: every acquired slot is given back
when its frame unwinds. -/
theorem download_go_releases (b : Nat → GetOutcome) :
    ∀ left retries,
      releasesOf (download_go b left retries).1
        = attemptsOf (download_go b left retries).1 := by
  intro left
  induction left with
  | zero =>
      intro r
      cases hb : b r <;>
        simp [download_go, hb, attemptsOf, releasesOf, List.countP_cons,
          List.countP_append] <;>
        split <;> simp [List.countP_cons]
  | succ l ih =>
      intro r
      cases hb : b r
      case osError =>
        have := ih (r + 1)
        simp [download_go, hb, attemptsOf, releasesOf, List.countP_cons,
          List.countP_append] at this ⊢
        omega
      all_goals
        simp [download_go, hb, attemptsOf, releasesOf, List.countP_cons,
          List.countP_append] <;>
        split <;> simp [List.countP_cons]

/-- A whole run of the recursive core holds no slot at its end. -/
theorem download_go_held (b : Nat → GetOutcome) :
    ∀ left retries, heldAfter (download_go b left retries).1 = 0 := by
  intro left
  induction left with
  | zero =>
      intro r
      cases hb : b r <;>
        simp [download_go, hb, heldAfter, heldFrom, gateDelta] <;>
        split <;> simp [heldFrom, gateDelta]
  | succ l ih =>
      intro r
      cases hb : b r
      case osError =>
        have hz := ih (r + 1)
        simp only [download_go, hb, heldAfter]
        rw [show (Ev.acquire :: Ev.getAttempt r ::
            ([Ev.logRetry (r + 1), Ev.sleepBackoff (2 ^ r)]
              ++ (download_go b l (r + 1)).1) ++ [Ev.release])
          = ([Ev.acquire, Ev.getAttempt r, Ev.logRetry (r + 1),
              Ev.sleepBackoff (2 ^ r)] ++ (download_go b l (r + 1)).1)
            ++ [Ev.release] from by simp]
        rw [heldFrom_append, heldFrom_append,
          heldFrom_eq _ (download_go b l (r + 1)).1, hz]
        simp [heldFrom, gateDelta]
      all_goals
        simp [download_go, hb, heldAfter, heldFrom, gateDelta] <;>
        split <;> simp [heldFrom, gateDelta]

/-- Along a run of the recursive core the number of held slots never
goes negative. -/
theorem download_go_nonneg (b : Nat → GetOutcome) :
    ∀ left retries, gateNonnegFrom 0 (download_go b left retries).1 = true := by
  intro left
  induction left with
  | zero =>
      intro r
      cases hb : b r <;>
        simp [download_go, hb, gateNonnegFrom, gateDelta] <;>
        split <;> simp [gateNonnegFrom, gateDelta]
  | succ l ih =>
      intro r
      cases hb : b r
      case osError =>
        have hnn := ih (r + 1)
        have hz := download_go_held b l (r + 1)
        simp only [download_go, hb]
        rw [show (Ev.acquire :: Ev.getAttempt r ::
            ([Ev.logRetry (r + 1), Ev.sleepBackoff (2 ^ r)]
              ++ (download_go b l (r + 1)).1) ++ [Ev.release])
          = ([Ev.acquire, Ev.getAttempt r, Ev.logRetry (r + 1),
              Ev.sleepBackoff (2 ^ r)] ++ (download_go b l (r + 1)).1)
            ++ [Ev.release] from by simp]
        rw [gateNonnegFrom_append, gateNonnegFrom_append, heldFrom_append]
        have h1 : gateNonnegFrom 1 (download_go b l (r + 1)).1 = true :=
          gateNonnegFrom_mono (by omega) _ hnn
        have h3 : heldFrom 0 [Ev.acquire, Ev.getAttempt r,
            Ev.logRetry (r + 1), Ev.sleepBackoff (2 ^ r)] = 1 := by
          simp [heldFrom, gateDelta]
        rw [h3]
        have h2 : heldFrom 1 (download_go b l (r + 1)).1 = 1 := by
          rw [heldFrom_eq _ (download_go b l (r + 1)).1, hz]
          omega
        rw [h2]
        simp [h1, gateNonnegFrom, gateDelta]
      all_goals
        simp [download_go, hb, gateNonnegFrom, gateDelta] <;>
        split <;> simp [gateNonnegFrom, gateDelta]

/-- The backoff sleeps of a run of the recursive core are exactly the
powers `2 ^ retries, 2 ^ (retries + 1), ...`, one per retry performed. -/
theorem download_go_sleeps (b : Nat → GetOutcome) :
    ∀ left retries,
      sleepsOf (download_go b left retries).1
        = (List.range' retries
            (attemptsOf (download_go b left retries).1 - 1)).map (2 ^ ·) := by
  intro left
  induction left with
  | zero =>
      intro r
      cases hb : b r <;>
        simp [download_go, hb, attemptsOf, sleepsOf, List.countP_cons,
          List.countP_append] <;>
        split <;> simp [List.countP_cons, sleepsOf]
  | succ l ih =>
      intro r
      cases hb : b r
      case osError =>
        have hs := ih (r + 1)
        have hp := download_go_attempts_pos b l (r + 1)
        simp [download_go, hb, attemptsOf, sleepsOf, List.countP_cons,
          List.countP_append, List.filterMap_append] at hs ⊢
        rw [hs]
        simp only [attemptsOf] at hp
        rw [show List.countP (fun e =>
            match e with | .getAttempt _ => true | _ => false)
            (download_go b l (r + 1)).1
          = (List.countP (fun e =>
              match e with | .getAttempt _ => true | _ => false)
              (download_go b l (r + 1)).1 - 1) + 1 from by omega]
        rw [List.range'_succ]
        simp
      all_goals
        simp [download_go, hb, attemptsOf, sleepsOf, List.countP_cons,
          List.countP_append] <;>
        split <;> simp [List.countP_cons, sleepsOf]


/-- With the default budget `max_retries = 5` the wrapper and the
recursive core agree: the guard `retries < 5` of the source is the guard
`0 < 5 - retries` of the structural version. -/
theorem download_single_pdf_eq_rec (b : Nat → GetOutcome) (r : Nat) :
    download_single_pdf b r 5 = download_single_pdf_rec b r := by
  rcases Nat.lt_or_ge r 5 with h | h
  · have h5 : 5 - r = (5 - (r + 1)) + 1 := by omega
    rw [download_single_pdf_rec, h5]
    cases hb : b r <;>
      simp [download_single_pdf, download_single_pdf_rec, download_go, hb, h]
  · have h5 : 5 - r = 0 := by omega
    have hlt : ¬ r < 5 := by omega
    rw [download_single_pdf_rec, h5]
    cases hb : b r <;>
      simp [download_single_pdf, download_go, hb, hlt]

/-- When every attempt fails with a transport OS error the core runs
through its whole budget and ends permanently failed. -/
theorem download_go_exhaust (b : Nat → GetOutcome) (hb : ∀ n, b n = .osError) :
    ∀ left retries,
      attemptsOf (download_go b left retries).1 = left + 1
      ∧ (download_go b left retries).2 = .permanentlyFailed := by
  intro left
  induction left with
  | zero =>
      intro r
      simp [download_go, hb r, attemptsOf, List.countP_cons, List.countP_append]
  | succ l ih =>
      intro r
      obtain ⟨ha, hres⟩ := ih (r + 1)
      constructor
      · simp [download_go, hb r, attemptsOf, List.countP_cons,
          List.countP_append] at ha ⊢
        omega
      · simp [download_go, hb r, hres]

/- ------------------------------------------------------------------ -/
/- Ordering lemmas                                                     -/
/- ------------------------------------------------------------------ -/

theorem charListLe_total (s t : List Char) :
    charListLe s t = true ∨ charListLe t s = true := by
  induction s generalizing t with
  | nil => left; simp [charListLe]
  | cons x xs ih =>
      cases t with
      | nil => right; simp [charListLe]
      | cons y ys =>
          by_cases hxy : x < y
          · left; simp [charListLe, hxy]
          · by_cases hyx : y < x
            · right; simp [charListLe, hyx]
            · have hxe : x = y := le_antisymm (not_lt.mp hyx) (not_lt.mp hxy)
              subst hxe
              rcases ih ys with h2 | h2
              · left; simp [charListLe, h2, lt_irrefl]
              · right; simp [charListLe, h2, lt_irrefl]

theorem charListLe_trans {s t u : List Char} (h1 : charListLe s t = true)
    (h2 : charListLe t u = true) : charListLe s u = true := by
  induction s generalizing t u with
  | nil => simp [charListLe]
  | cons x xs ih =>
      cases t with
      | nil => simp [charListLe] at h1
      | cons y ys =>
          cases u with
          | nil => simp [charListLe] at h2
          | cons z zs =>
              simp only [charListLe] at h1 h2 ⊢
              by_cases hxy : x < y
              · by_cases hyz : y < z
                · simp [lt_trans hxy hyz]
                · by_cases hzy : z < y
                  · simp [hyz, hzy] at h2
                  · have hye : y = z := le_antisymm (not_lt.mp hzy) (not_lt.mp hyz)
                    subst hye
                    simp [hxy]
              · by_cases hyx : y < x
                · simp [hxy, hyx] at h1
                · have hxe : x = y := le_antisymm (not_lt.mp hyx) (not_lt.mp hxy)
                  subst hxe
                  simp only [lt_irrefl, if_false] at h1
                  by_cases hxz : x < z
                  · simp [hxz]
                  · by_cases hzx : z < x
                    · simp [hxz, hzx] at h2
                    · have hxe2 : x = z := le_antisymm (not_lt.mp hzx) (not_lt.mp hxz)
                      subst hxe2
                      simp only [lt_irrefl, if_false] at h1 h2 ⊢
                      exact ih h1 h2

theorem charListLe_antisymm {s t : List Char} (h1 : charListLe s t = true)
    (h2 : charListLe t s = true) : s = t := by
  induction s generalizing t with
  | nil =>
      cases t with
      | nil => rfl
      | cons y ys => simp [charListLe] at h2
  | cons x xs ih =>
      cases t with
      | nil => simp [charListLe] at h1
      | cons y ys =>
          simp only [charListLe] at h1 h2
          by_cases hxy : x < y
          · simp [hxy, lt_asymm hxy] at h2
          · by_cases hyx : y < x
            · simp [hxy, hyx] at h1
            · have hxe : x = y := le_antisymm (not_lt.mp hyx) (not_lt.mp hxy)
              subst hxe
              simp only [lt_irrefl, if_false] at h1 h2
              rw [ih h1 h2]

theorem keyLe_total (a b : SortKey) : keyLe a b = true ∨ keyLe b a = true := by
  cases a <;> cases b <;> simp [keyLe] <;> first
    | exact charListLe_total _ _
    | omega

theorem keyLe_trans {a b c : SortKey} (h1 : keyLe a b = true)
    (h2 : keyLe b c = true) : keyLe a c = true := by
  cases a <;> cases b <;> cases c <;> simp [keyLe] at h1 h2 ⊢ <;> first
    | exact charListLe_trans h1 h2
    | omega

theorem keyLe_antisymm {a b : SortKey} (h1 : keyLe a b = true)
    (h2 : keyLe b a = true) : a = b := by
  cases a <;> cases b <;> simp [keyLe] at h1 h2 ⊢ <;> first
    | exact charListLe_antisymm h1 h2
    | omega

instance : IsTotal String fileLe :=
  ⟨fun a b => keyLe_total (sort_key a) (sort_key b)⟩

instance : IsTrans String fileLe :=
  ⟨fun _ _ _ h1 h2 => keyLe_trans h1 h2⟩

/-- The sorted group list is ordered by the identifier order. -/
theorem sort_files_sorted (files : List String) :
    (sort_files files).Pairwise fileLe :=
  List.sorted_insertionSort fileLe files

/-- The sorted group list is a permutation of the listed files. -/
theorem sort_files_perm (files : List String) :
    (sort_files files).Perm files :=
  List.perm_insertionSort fileLe files

/- ------------------------------------------------------------------ -/
/- Gate capacity at schedule level                                     -/
/- ------------------------------------------------------------------ -/

theorem heldBy_cons (e : GateOp) (es : List GateOp) (t : Nat) :
    heldBy (e :: es) t
      = (if e.1 = t then (if e.2 then (1 : Int) else -1) else 0) + heldBy es t := by
  by_cases h : e.1 = t <;> simp [heldBy, List.filter_cons, h]

theorem totalHeld_eq_sum (s : List GateOp) (ids : Finset Nat)
    (hids : ∀ e ∈ s, e.1 ∈ ids) :
    totalHeld s = ∑ t ∈ ids, heldBy s t := by
  induction s with
  | nil => simp [totalHeld, heldBy]
  | cons e es ih =>
      have he : e.1 ∈ ids := hids e (by simp)
      have ihs := ih fun e' he' => hids e' (by simp [he'])
      have hsum : ∑ t ∈ ids, heldBy (e :: es) t
          = (∑ t ∈ ids, if e.1 = t then (if e.2 then (1 : Int) else -1) else 0)
            + ∑ t ∈ ids, heldBy es t := by
        rw [← Finset.sum_add_distrib]
        exact Finset.sum_congr rfl fun t _ => heldBy_cons e es t
      rw [hsum, Finset.sum_ite_eq ids e.1 (fun _ => if e.2 then (1 : Int) else -1),
        if_pos he, ← ihs]
      simp [totalHeld]

/-- Capacity bound of the admission gate, at schedule level: if along a
schedule every task holds a nonnegative number of slots (true of every
`download_single_pdf` trace, by `download_go_nonneg`) and the total
number of held slots respects the semaphore capacity `K`, then at most
`K` distinct tasks hold a slot at once. -/
theorem holdersCount_le_capacity (K : Nat) (s : List GateOp) (ids : Finset Nat)
    (hids : ∀ e ∈ s, e.1 ∈ ids)
    (hnn : ∀ t, 0 ≤ heldBy s t)
    (hcap : totalHeld s ≤ (K : Int)) :
    holdersCount s ids ≤ K := by
  classical
  have hsum : totalHeld s = ∑ t ∈ ids, heldBy s t := totalHeld_eq_sum s ids hids
  have hzero : ∑ t ∈ ids.filter (fun t => ¬ 0 < heldBy s t), heldBy s t = 0 :=
    Finset.sum_eq_zero fun t ht => by
      have h1 := hnn t
      have h2 := (Finset.mem_filter.mp ht).2
      omega
  have hsplit : ∑ t ∈ ids, heldBy s t
      = ∑ t ∈ ids.filter (fun t => 0 < heldBy s t), heldBy s t := by
    rw [← Finset.sum_filter_add_sum_filter_not ids (fun t => 0 < heldBy s t)
      (heldBy s), hzero, add_zero]
  have hcard : ((ids.filter (fun t => 0 < heldBy s t)).card : Int)
      ≤ ∑ t ∈ ids.filter (fun t => 0 < heldBy s t), heldBy s t := by
    have := Finset.card_nsmul_le_sum (ids.filter (fun t => 0 < heldBy s t))
      (heldBy s) 1 (fun t ht => by
        have := (Finset.mem_filter.mp ht).2
        omega)
    simpa using this
  have : ((ids.filter (fun t => 0 < heldBy s t)).card : Int) ≤ (K : Int) := by
    omega
  exact_mod_cast this

/- ------------------------------------------------------------------ -/
/- Group loop lemmas                                                   -/
/- ------------------------------------------------------------------ -/

theorem groupsOf_groupLoop (d : Nat) (gs : List String) :
    groupsOf (groupLoop d gs) = gs := by
  induction gs with
  | nil => rfl
  | cons g rest ih =>
      cases rest with
      | nil => rfl
      | cons g2 gs2 =>
          simp only [groupLoop, groupsOf, List.filterMap_cons] at ih ⊢
          simp only [ih]

theorem pacings_groupLoop (d : Nat) (gs : List String) :
    (pacingsOf (groupLoop d gs)).length = gs.length - 1 := by
  induction gs with
  | nil => rfl
  | cons g rest ih =>
      cases rest with
      | nil => rfl
      | cons g2 gs2 =>
          simp only [groupLoop, pacingsOf, List.filterMap_cons] at ih ⊢
          simp only [List.length_cons] at ih ⊢
          simp [ih]

theorem pacings_groupLoop_val (d : Nat) (gs : List String) :
    ∀ x ∈ pacingsOf (groupLoop d gs), x = d := by
  induction gs with
  | nil => intro x hx; simp [groupLoop, pacingsOf] at hx
  | cons g rest ih =>
      cases rest with
      | nil => intro x hx; simp [groupLoop, pacingsOf] at hx
      | cons g2 gs2 =>
          intro x hx
          simp only [groupLoop, pacingsOf, List.filterMap_cons] at hx ih
          rcases List.mem_cons.mp hx with h | h
          · exact h
          · exact ih x h

theorem groupLoop_ne_nil (d : Nat) (g : String) (gs : List String) :
    groupLoop d (g :: gs) ≠ [] := by
  cases gs <;> simp [groupLoop]

/-- The trace of a nonempty run ends with a group event: no pacing delay
follows the final group. -/
theorem groupLoop_last_group (d : Nat) (gs : List String) (hne : gs ≠ []) :
    ∃ g, (groupLoop d gs).getLast? = some (.group g) := by
  induction gs with
  | nil => exact absurd rfl hne
  | cons g rest ih =>
      cases rest with
      | nil => exact ⟨g, rfl⟩
      | cons g2 gs2 =>
          obtain ⟨gl, hgl⟩ := ih (by simp)
          refine ⟨gl, ?_⟩
          rw [show groupLoop d (g :: g2 :: gs2)
            = .group g :: .pacing d :: groupLoop d (g2 :: gs2) from rfl]
          rw [List.getLast?_cons_cons]
          cases hcons : groupLoop d (g2 :: gs2) with
          | nil => exact absurd hcons (groupLoop_ne_nil d g2 gs2)
          | cons e es =>
              rw [List.getLast?_cons_cons, ← hcons]
              exact hgl

/- ------------------------------------------------------------------ -/
/- Partial results of the group-detail stage                           -/
/- ------------------------------------------------------------------ -/

theorem replaceChar_not_mem {a b : Char} (hab : b ≠ a) (l : List Char) :
    a ∉ replaceChar a b l := by
  induction l with
  | nil => simp [replaceChar]
  | cons c cs ih =>
      simp only [replaceChar, List.mem_cons]
      rintro (h | h)
      · by_cases hc : c = a
        · rw [if_pos hc] at h
          exact hab h.symm
        · rw [if_neg hc] at h
          exact hc h.symm
      · exact ih h

theorem replaceChar_mem {a b c : Char} {l : List Char}
    (h : c ∈ replaceChar a b l) : c = b ∨ c ∈ l := by
  induction l with
  | nil => simp [replaceChar] at h
  | cons x xs ih =>
      simp only [replaceChar, List.mem_cons] at h
      rcases h with h | h
      · by_cases hx : x = a
        · rw [if_pos hx] at h
          exact Or.inl h
        · rw [if_neg hx] at h
          exact Or.inr (List.mem_cons.mpr (Or.inl h))
      · rcases ih h with h2 | h2
        · exact Or.inl h2
        · exact Or.inr (List.mem_cons.mpr (Or.inr h2))

/-- A sanitised filename contains no path separator. -/
theorem sanitize_no_slash (t : String) :
    '/' ∉ (sanitize_filename t).data := by
  intro h
  simp only [sanitize_filename] at h
  rcases replaceChar_mem h with h2 | h2
  · exact absurd h2 (by decide)
  · exact replaceChar_not_mem (by decide) _ h2

/-- Splitting at a separator is unambiguous when the left parts are
separator free. -/
theorem append_slash_inj {as cs bs ds : List Char}
    (ha : '/' ∉ as) (hc : '/' ∉ cs)
    (h : as ++ '/' :: bs = cs ++ '/' :: ds) : as = cs ∧ bs = ds := by
  induction as generalizing cs with
  | nil =>
      cases cs with
      | nil => simpa using h
      | cons c cs2 =>
          simp only [List.nil_append, List.cons_append, List.cons.injEq] at h
          exact absurd (h.1 ▸ List.mem_cons_self c cs2) (h.1 ▸ hc)
  | cons a as2 ih =>
      cases cs with
      | nil =>
          simp only [List.nil_append, List.cons_append, List.cons.injEq] at h
          exact absurd (h.1 ▸ List.mem_cons_self a as2) (by
            rw [h.1] at ha
            exact ha)
      | cons c cs2 =>
          simp only [List.cons_append, List.cons.injEq] at h
          obtain ⟨hac, htail⟩ := h
          have ha2 : '/' ∉ as2 := fun hm => ha (List.mem_cons_of_mem a hm)
          have hc2 : '/' ∉ cs2 := fun hm => hc (List.mem_cons_of_mem c hm)
          obtain ⟨h1, h2⟩ := ih ha2 hc2 htail
          exact ⟨by rw [hac, h1], h2⟩

/-- Decomposition of a destination path under the side conditions that
hold for the paths the downloader builds: the directory is nonempty
without trailing separator, the identifier is nonempty and separator
free. -/
theorem destinationPath_data (pdf_dir ident title : String)
    (hd1 : pdf_dir ≠ "") (hd2 : pdf_dir.data.getLast? ≠ some '/')
    (hi1 : ident ≠ "") (hi2 : '/' ∉ ident.data) :
    (destinationPath pdf_dir ident title).data
      = pdf_dir.data ++ '/' :: (ident.data ++ '/'
          :: ((sanitize_filename title).data ++ ".pdf".data)) := by
  have hidata : ident.data ≠ [] := fun h => hi1 (by
    cases ident
    simp_all)
  have hih : ident.data.head? ≠ some '/' := by
    cases hh : ident.data with
    | nil => simp
    | cons c cs =>
        simp only [List.head?_cons, Option.some.injEq, ne_eq]
        intro hcc
        subst hcc
        exact hi2 (by rw [hh]; exact List.mem_cons_self _ _)
  have hjoin1 : pathJoin pdf_dir ident = pdf_dir ++ "/" ++ ident := by
    simp only [pathJoin]
    rw [if_neg hih, if_neg (by simp [hd1, hd2])]
  have hjdata : (pdf_dir ++ "/" ++ ident).data
      = pdf_dir.data ++ '/' :: ident.data := by
    simp [String.data_append]
  have hjne : pdf_dir ++ "/" ++ ident ≠ "" := by
    intro h
    have h2 : (pdf_dir ++ "/" ++ ident).data = [] := by rw [h]
    rw [hjdata] at h2
    simp at h2
  have hjlast : (pdf_dir ++ "/" ++ ident).data.getLast? ≠ some '/' := by
    rw [hjdata,
      show pdf_dir.data ++ '/' :: ident.data
        = (pdf_dir.data ++ ['/']) ++ ident.data from by simp,
      List.getLast?_append_of_ne_nil _ hidata]
    intro h
    exact hi2 (List.mem_of_mem_getLast? h)
  have hfile : ((sanitize_filename title) ++ ".pdf").data.head? ≠ some '/' := by
    rw [String.data_append]
    cases hs : (sanitize_filename title).data with
    | nil => simp [String.data]
    | cons c cs =>
        simp only [List.cons_append, List.head?_cons, Option.some.injEq, ne_eq]
        intro hcc
        subst hcc
        exact sanitize_no_slash title (by rw [hs]; exact List.mem_cons_self _ _)
  rw [destinationPath, hjoin1]
  simp only [pathJoin]
  rw [if_neg hfile, if_neg (by
    simp only [Bool.or_eq_true, decide_eq_true_eq]
    push_neg
    exact ⟨hjne, hjlast⟩)]
  simp [String.data_append]

theorem replaceChar_of_not_mem {a : Char} (b : Char) {l : List Char}
    (h : a ∉ l) : replaceChar a b l = l := by
  induction l with
  | nil => rfl
  | cons c cs ih =>
      simp only [List.mem_cons, not_or] at h
      have hc : ¬ c = a := fun hca => h.1 hca.symm
      simp [replaceChar, hc, ih h.2]

/-- A sanitised filename contains no backslash either. -/
theorem sanitize_no_bslash (t : String) :
    '\\' ∉ (sanitize_filename t).data := by
  intro h
  exact replaceChar_not_mem (by decide) _ h

/-- Sanitising is idempotent: a sanitised name has no separator left to
replace. -/
theorem sanitize_idem (t : String) :
    sanitize_filename (sanitize_filename t) = sanitize_filename t := by
  apply String.ext
  show replaceChar '\\' '_' (replaceChar '/' '_' (sanitize_filename t).data)
    = (sanitize_filename t).data
  rw [replaceChar_of_not_mem _ (sanitize_no_slash t),
    replaceChar_of_not_mem _ (sanitize_no_bslash t)]

/-- Two destination paths built over the same artifact directory agree
exactly when group identifier and sanitised title both agree. -/
theorem destinationPath_inj {pdf_dir id1 id2 t1 t2 : String}
    (hd1 : pdf_dir ≠ "") (hd2 : pdf_dir.data.getLast? ≠ some '/')
    (hia : id1 ≠ "") (hib : '/' ∉ id1.data)
    (hic : id2 ≠ "") (hid : '/' ∉ id2.data)
    (h : destinationPath pdf_dir id1 t1 = destinationPath pdf_dir id2 t2) :
    id1 = id2 ∧ sanitize_filename t1 = sanitize_filename t2 := by
  have e := congrArg String.data h
  rw [destinationPath_data pdf_dir id1 t1 hd1 hd2 hia hib,
    destinationPath_data pdf_dir id2 t2 hd1 hd2 hic hid] at e
  have e2 := List.append_cancel_left e
  have e3 : id1.data ++ '/' :: ((sanitize_filename t1).data ++ ".pdf".data)
      = id2.data ++ '/' :: ((sanitize_filename t2).data ++ ".pdf".data) := by
    injection e2
  obtain ⟨eid, efile⟩ := append_slash_inj hib hid e3
  exact ⟨String.ext eid, String.ext (List.append_cancel_right efile)⟩

/-- Under distinct group identifiers and, within every group, distinct
sanitised titles, all destination paths of a run are distinct. -/
theorem allDestPaths_nodup (pdf_dir : String)
    (groups : List (String × List String))
    (hd1 : pdf_dir ≠ "") (hd2 : pdf_dir.data.getLast? ≠ some '/')
    (hids : (groups.map Prod.fst).Nodup)
    (hidok : ∀ g ∈ groups, g.1 ≠ "" ∧ '/' ∉ g.1.data)
    (htit : ∀ g ∈ groups, (g.2.map sanitize_filename).Nodup) :
    (allDestPaths pdf_dir groups).Nodup := by
  induction groups with
  | nil => simp [allDestPaths]
  | cons g gs ih =>
      obtain ⟨hgne, hgns⟩ := hidok g (List.mem_cons_self g gs)
      have hgsan := htit g (List.mem_cons_self g gs)
      have hids2 : (gs.map Prod.fst).Nodup := by
        simp only [List.map_cons, List.nodup_cons] at hids
        exact hids.2
      have hgnotin : g.1 ∉ gs.map Prod.fst := by
        simp only [List.map_cons, List.nodup_cons] at hids
        exact hids.1
      have ih2 := ih hids2 (fun g' hg' => hidok g' (List.mem_cons_of_mem g hg'))
        (fun g' hg' => htit g' (List.mem_cons_of_mem g hg'))
      simp only [allDestPaths, List.flatMap_cons] at ih2 ⊢
      rw [List.nodup_append]
      refine ⟨?_, ih2, ?_⟩
      · have hmm : g.2.map (fun t => destinationPath pdf_dir g.1 t)
            = (g.2.map sanitize_filename).map
                (fun s => destinationPath pdf_dir g.1 s) := by
          rw [List.map_map]
          apply List.map_congr_left
          intro t _
          show destinationPath pdf_dir g.1 t
            = destinationPath pdf_dir g.1 (sanitize_filename t)
          simp only [destinationPath, sanitize_idem]
        rw [hmm]
        apply List.Nodup.map_on ?inj hgsan
        case inj =>
          intro s1 hs1 s2 hs2 hf
          have := (destinationPath_inj hd1 hd2 hgne hgns hgne hgns hf).2
          obtain ⟨u1, _, hu1⟩ := List.mem_map.mp hs1
          obtain ⟨u2, _, hu2⟩ := List.mem_map.mp hs2
          rw [← hu1, ← hu2] at this ⊢
          rw [sanitize_idem, sanitize_idem] at this
          exact this
      · intro p hp1 hp2
        obtain ⟨t1, _, hpt1⟩ := List.mem_map.mp hp1
        obtain ⟨g', hg', hp'⟩ := List.mem_flatMap.mp hp2
        obtain ⟨t2, _, hpt2⟩ := List.mem_map.mp hp'
        obtain ⟨hg'ne, hg'ns⟩ := hidok g' (List.mem_cons_of_mem g hg')
        have heq : destinationPath pdf_dir g.1 t1
            = destinationPath pdf_dir g'.1 t2 := by rw [hpt1, hpt2]
        have hsame := (destinationPath_inj hd1 hd2 hgne hgns hg'ne hg'ns heq).1
        exact hgnotin (hsame ▸ List.mem_map_of_mem Prod.fst hg')

/- ------------------------------------------------------------------ -/
/- Concrete attempt behaviours used by counterexamples and witnesses   -/
/- ------------------------------------------------------------------ -/

/-- Every attempt raises `aiohttp.ClientOSError`. -/
def allOsBehavior : Nat → GetOutcome := fun _ => .osError

/-- The first attempt raises `aiohttp.ClientOSError`, the second
receives a status 200 response. -/
def retryOnceBehavior : Nat → GetOutcome :=
  fun n => if n = 0 then .osError else .resp 200 "B"

/-- Every attempt runs into the 60 second total timeout. -/
def timeoutBehavior : Nat → GetOutcome := fun _ => .timeout

/-- Every attempt receives a status 404 response. -/
def status404Behavior : Nat → GetOutcome := fun _ => .resp 404 ""

/-- A record whose `pdf_link` is absent. -/
def recNoLink : DocumentRecord := ⟨"w", "T", "", none⟩

/- ------------------------------------------------------------------ -/
/- Claim C1                                                            -/
/- ------------------------------------------------------------------ -/

/-- C1 counterexample: the claim says every download task acquires
exactly one gate slot.  A task whose first attempt fails with a
transport OS error and whose retry succeeds acquires the gate twice —
the recursive retry call of `download_single_pdf` stands inside the
`async with semaphore` block, so the retry frame re-acquires while the
first slot is still held: after the events leading into the second
attempt the task holds 2 slots at once. -/
theorem C1_gate_two_acquires_counterexample :
    acquiresOf (download_single_pdf retryOnceBehavior 0 5).1 = 2
    ∧ (download_single_pdf retryOnceBehavior 0 5).2 = .succeeded
    ∧ heldAfter ((download_single_pdf retryOnceBehavior 0 5).1.take 6) = 2 := by
  decide

/-- C1 amended: every download task acquires one gate slot per transfer
attempt (a retrying task therefore holds several nested slots at once),
all of them released by the time it reaches its terminal state, the held
count never going negative; and, at schedule level, whenever the
semaphore keeps the total number of held slots at or below its capacity
`K` and each task holds a nonnegative number of slots (which every task
trace guarantees), at most `K` distinct tasks hold the gate at any
instant. -/
theorem C1_gate_slot_per_attempt_and_capacity :
    (∀ b : Nat → GetOutcome,
      acquiresOf (download_single_pdf b 0 5).1
          = attemptsOf (download_single_pdf b 0 5).1
      ∧ releasesOf (download_single_pdf b 0 5).1
          = attemptsOf (download_single_pdf b 0 5).1
      ∧ heldAfter (download_single_pdf b 0 5).1 = 0
      ∧ gateNonnegFrom 0 (download_single_pdf b 0 5).1 = true)
    ∧ (∀ (K : Nat) (s : List GateOp) (ids : Finset Nat),
        (∀ e ∈ s, e.1 ∈ ids) → (∀ t, 0 ≤ heldBy s t) →
        totalHeld s ≤ (K : Int) → holdersCount s ids ≤ K) := by
  constructor
  · intro b
    rw [download_single_pdf_eq_rec, download_single_pdf_rec]
    exact ⟨download_go_acquires b _ _, download_go_releases b _ _,
      download_go_held b _ _, download_go_nonneg b _ _⟩
  · exact fun K s ids => holdersCount_le_capacity K s ids

/-- C1 witness: the amended statement applied to the behaviour with one
transient failure and to the three-event schedule in which tasks 0 and 1
acquire and task 0 releases, under capacity 2. -/
theorem C1_gate_slot_per_attempt_and_capacity_witness :
    acquiresOf (download_single_pdf retryOnceBehavior 0 5).1
        = attemptsOf (download_single_pdf retryOnceBehavior 0 5).1
    ∧ holdersCount [((0 : Nat), true), ((1 : Nat), true), ((0 : Nat), false)]
        {0, 1} ≤ 2 := by
  constructor
  · exact (C1_gate_slot_per_attempt_and_capacity.1 retryOnceBehavior).1
  · apply C1_gate_slot_per_attempt_and_capacity.2 2
      [((0 : Nat), true), ((1 : Nat), true), ((0 : Nat), false)] {0, 1}
    · decide
    · intro t
      by_cases h0 : (0 : Nat) = t
      · subst h0; decide
      · by_cases h1 : (1 : Nat) = t
        · subst h1; decide
        · simp [heldBy, List.filter_cons, h0, h1]
    · decide

/- ------------------------------------------------------------------ -/
/- Claim C2                                                            -/
/- ------------------------------------------------------------------ -/

/-- C2 counterexample: the claim says at most 5 attempts in total and
never a sixth.  With `retries` starting at 0 and the guard
`retries < max_retries`, the attempts run at `retries = 0, 1, 2, 3, 4, 5`:
six transfer attempts in total. -/
theorem C2_six_attempts_counterexample :
    attemptsOf (download_single_pdf allOsBehavior 0 5).1 = 6
    ∧ (download_single_pdf allOsBehavior 0 5).2 = .permanentlyFailed := by
  decide

/-- C2 amended: a download task makes at most 6 transfer attempts in
total (the initial attempt plus up to `max_retries = 5` retries); when
every attempt fails with a transient transport error it makes exactly 6
attempts, never a seventh, and is then recorded as a permanent
failure. -/
theorem C2_retry_budget :
    (∀ b : Nat → GetOutcome, attemptsOf (download_single_pdf b 0 5).1 ≤ 6)
    ∧ (∀ b : Nat → GetOutcome, (∀ n, b n = .osError) →
        attemptsOf (download_single_pdf b 0 5).1 = 6
        ∧ (download_single_pdf b 0 5).2 = .permanentlyFailed) := by
  constructor
  · intro b
    rw [download_single_pdf_eq_rec, download_single_pdf_rec]
    exact download_go_attempts_le b _ _
  · intro b hb
    rw [download_single_pdf_eq_rec, download_single_pdf_rec]
    exact download_go_exhaust b hb _ _

/-- C2 witness: the amended statement applied to the behaviour failing
every attempt. -/
theorem C2_retry_budget_witness :
    attemptsOf (download_single_pdf allOsBehavior 0 5).1 = 6
    ∧ (download_single_pdf allOsBehavior 0 5).2 = .permanentlyFailed :=
  C2_retry_budget.2 allOsBehavior fun _ => rfl

/- ------------------------------------------------------------------ -/
/- Claim C3                                                            -/
/- ------------------------------------------------------------------ -/

/-- C3 counterexample: the claim says a timeout is a transient failure
that sleeps and retries.  In the source only `aiohttp.ClientOSError` is
caught by the retry branch; the `asyncio.TimeoutError` raised when the
60 second budget elapses is not of that class and falls to the generic
`except Exception` handler: one attempt, no backoff sleep, no retry. -/
theorem C3_timeout_not_retried_counterexample :
    (download_single_pdf timeoutBehavior 0 5).1
      = [.acquire, .getAttempt 0, .logUnexpected, .release]
    ∧ sleepsOf (download_single_pdf timeoutBehavior 0 5).1 = []
    ∧ attemptsOf (download_single_pdf timeoutBehavior 0 5).1 = 1 := by
  decide

/-- C3 amended: a connection-reset style `ClientOSError` at attempt
`r < 5` makes the task log the retry, sleep `2 ^ r` seconds and run the
next attempt; the backoff sleeps of any run are strictly increasing; a
response with a non-success HTTP status is recorded as a permanent
failure immediately with no retry; and a timeout is handled by the
generic exception branch — no sleep, no retry. -/
theorem C3_backoff_and_status_policy :
    (∀ (b : Nat → GetOutcome) (r : Nat), r < 5 → b r = .osError →
      (download_single_pdf_rec b r).1
        = .acquire :: .getAttempt r :: .logRetry (r + 1)
            :: .sleepBackoff (2 ^ r)
            :: ((download_single_pdf_rec b (r + 1)).1 ++ [.release]))
    ∧ (∀ b : Nat → GetOutcome,
        (sleepsOf (download_single_pdf b 0 5).1).Pairwise (· < ·))
    ∧ (∀ (b : Nat → GetOutcome) (r c : Nat) (body : String),
        b r = .resp c body → c ≠ 200 →
        (download_single_pdf_rec b r).1
            = [.acquire, .getAttempt r, .logStatusFail c, .release]
        ∧ (download_single_pdf_rec b r).2 = .permanentlyFailed)
    ∧ (∀ (b : Nat → GetOutcome) (r : Nat), b r = .timeout →
        (download_single_pdf_rec b r).1
            = [.acquire, .getAttempt r, .logUnexpected, .release]
        ∧ (download_single_pdf_rec b r).2 = .unexpectedError) := by
  refine ⟨?_, ?_, ?_, ?_⟩
  · intro b r hr hb
    have h5 : 5 - r = (5 - (r + 1)) + 1 := by omega
    rw [download_single_pdf_rec, download_single_pdf_rec, h5]
    simp [download_go, hb]
  · intro b
    rw [download_single_pdf_eq_rec, download_single_pdf_rec]
    rw [download_go_sleeps b _ _]
    apply List.Pairwise.map
    · intro m n hmn
      exact Nat.pow_lt_pow_right (by omega) hmn
    · exact List.pairwise_lt_range' _ _
  · intro b r c body hb hc
    rw [download_single_pdf_rec]
    cases h5 : 5 - r <;> simp [download_go, hb, hc]
  · intro b r hb
    rw [download_single_pdf_rec]
    cases h5 : 5 - r <;> simp [download_go, hb]

/-- C3 witness: the amended statement applied at attempt 0 to the
one-transient-failure behaviour, to the behaviour answering status 404
and to the timeout behaviour. -/
theorem C3_backoff_and_status_policy_witness :
    (download_single_pdf_rec retryOnceBehavior 0).1
      = .acquire :: .getAttempt 0 :: .logRetry 1 :: .sleepBackoff 1
          :: ((download_single_pdf_rec retryOnceBehavior 1).1 ++ [.release])
    ∧ (sleepsOf (download_single_pdf allOsBehavior 0 5).1).Pairwise (· < ·)
    ∧ (download_single_pdf_rec status404Behavior 0).1
        = [.acquire, .getAttempt 0, .logStatusFail 404, .release]
    ∧ (download_single_pdf_rec timeoutBehavior 0).1
        = [.acquire, .getAttempt 0, .logUnexpected, .release] := by
  refine ⟨?_, ?_, ?_, ?_⟩
  · exact C3_backoff_and_status_policy.1 retryOnceBehavior 0 (by decide) (by decide)
  · exact C3_backoff_and_status_policy.2.1 allOsBehavior
  · exact (C3_backoff_and_status_policy.2.2.1 status404Behavior 0 404 ""
      (by decide) (by decide)).1
  · exact (C3_backoff_and_status_policy.2.2.2 timeoutBehavior 0 (by decide)).1

/- ------------------------------------------------------------------ -/
/- Claim C4                                                            -/
/- ------------------------------------------------------------------ -/

/-- C4 counterexample: the claim says a record whose artifact link is
absent is never submitted for download.  The task list comprehension of
`download_all_pdfs` maps every record of the group content without any
filter on `pdf_link`: a one-record group whose record has no link still
yields one task, and that task carries no URL. -/
theorem C4_task_for_absent_link_counterexample :
    (tasksForGroup "data/pdf" "A" [recNoLink]).length = 1
    ∧ recNoLink.pdf_link = none
    ∧ (tasksForGroup "data/pdf" "A" [recNoLink]).countP (fun tk => tk.url.isNone)
        = 1 := by
  decide

/-- C4 amended: the downloader creates exactly one DownloadTask per
record of the group content, with no filter on the artifact link: the
i-th task points at the sanitised destination of the i-th record and
carries its `pdf_link` verbatim, absent links included, so the number of
tasks without a URL equals the number of records without a link. -/
theorem C4_one_task_per_record (pdf_dir ident : String)
    (content : List DocumentRecord) :
    (tasksForGroup pdf_dir ident content).length = content.length
    ∧ (tasksForGroup pdf_dir ident content).countP (fun tk => tk.url.isNone)
        = content.countP (fun item => item.pdf_link.isNone)
    ∧ (∀ (i : Nat) (item : DocumentRecord), content[i]? = some item →
        (tasksForGroup pdf_dir ident content)[i]?
          = some ⟨destinationPath pdf_dir ident item.title, item.pdf_link⟩) := by
  refine ⟨by simp [tasksForGroup], ?_, ?_⟩
  · simp [tasksForGroup, List.countP_map]
    rfl
  · intro i item hi
    simp [tasksForGroup, List.getElem?_map, hi]

/-- C4 witness: the amended statement applied to the one-record group
whose record lacks an artifact link. -/
theorem C4_one_task_per_record_witness :
    (tasksForGroup "data/pdf" "A" [recNoLink]).length = 1
    ∧ (tasksForGroup "data/pdf" "A" [recNoLink])[0]?
        = some ⟨destinationPath "data/pdf" "A" "T", none⟩ := by
  constructor
  · exact (C4_one_task_per_record "data/pdf" "A" [recNoLink]).1
  · exact (C4_one_task_per_record "data/pdf" "A" [recNoLink]).2.2 0 recNoLink rfl

/- ------------------------------------------------------------------ -/
/- Claim C5                                                            -/
/- ------------------------------------------------------------------ -/

/-- C5: `sort_key` induces a total order with the claimed shape —
alphabetic keys sort before numeric ones and lexicographically among
themselves, numeric keys sort by value (so the file with identifier 2
sorts before the one with identifier 10), keys of names with no
extractable identifier sort last — and the downloader processes groups
exactly in the `sort_files` order, which is sorted under that order and
a permutation of the listed group files. -/
theorem C5_orderKey_total_order_and_processing_order :
    (∀ a b : SortKey, keyLe a b = true ∨ keyLe b a = true)
    ∧ (∀ a b c : SortKey, keyLe a b = true → keyLe b c = true → keyLe a c = true)
    ∧ (∀ a b : SortKey, keyLe a b = true → keyLe b a = true → a = b)
    ∧ (∀ (s : List Char) (n : Nat),
        keyLe (.alpha s) (.num n) = true ∧ keyLe (.num n) (.alpha s) = false)
    ∧ (∀ m n : Nat, keyLe (.num m) (.num n) = true ↔ m ≤ n)
    ∧ (∀ k : SortKey, keyLe k .inf = true)
    ∧ sort_key "laws_2.json" = .num 2
    ∧ sort_key "laws_10.json" = .num 10
    ∧ sort_files ["laws_10.json", "laws_2.json", "laws.json", "laws_B.json"]
        = ["laws_B.json", "laws_2.json", "laws_10.json", "laws.json"]
    ∧ (∀ (laws : List String) (delay : Nat),
        groupsOf (download_all_pdfs_trace laws delay) = sort_files laws
        ∧ (sort_files laws).Pairwise fileLe
        ∧ (sort_files laws).Perm laws) := by
  refine ⟨keyLe_total, fun _ _ _ => keyLe_trans, fun _ _ => keyLe_antisymm,
    ?_, ?_, ?_, by decide, by decide, by decide, ?_⟩
  · intro s n
    exact ⟨rfl, rfl⟩
  · intro m n
    simp [keyLe]
  · intro k
    cases k <;> rfl
  · intro laws delay
    exact ⟨groupsOf_groupLoop delay (sort_files laws),
      sort_files_sorted laws, sort_files_perm laws⟩

/-- C5 witness: the order statement applied to concrete keys and a
concrete run. -/
theorem C5_orderKey_witness :
    (keyLe (.num 2) (.num 10) = true ↔ (2 : Nat) ≤ 10)
    ∧ keyLe (.alpha ['B']) (.num 2) = true
    ∧ groupsOf (download_all_pdfs_trace ["laws_10.json", "laws_2.json"] 5)
        = sort_files ["laws_10.json", "laws_2.json"] := by
  refine ⟨C5_orderKey_total_order_and_processing_order.2.2.2.2.1 2 10,
    (C5_orderKey_total_order_and_processing_order.2.2.2.1 ['B'] 2).1,
    (C5_orderKey_total_order_and_processing_order.2.2.2.2.2.2.2.2.2
      ["laws_10.json", "laws_2.json"] 5).1⟩

/- ------------------------------------------------------------------ -/
/- Claim C6                                                            -/
/- ------------------------------------------------------------------ -/

/-- C6: over `n ≥ 1` groups the downloader inserts exactly `n - 1`
pacing delays, one between each pair of consecutive groups, each of the
configured duration, and none after the final group (the trace ends with
a group event). -/
theorem C6_pacing_between_groups (laws : List String) (delay : Nat)
    (hne : laws ≠ []) :
    (pacingsOf (download_all_pdfs_trace laws delay)).length = laws.length - 1
    ∧ (∀ x ∈ pacingsOf (download_all_pdfs_trace laws delay), x = delay)
    ∧ (∃ g, (download_all_pdfs_trace laws delay).getLast? = some (.group g))
    ∧ (∀ (g g2 : String) (gs : List String),
        groupLoop delay (g :: g2 :: gs)
          = .group g :: .pacing delay :: groupLoop delay (g2 :: gs)) := by
  have hperm := sort_files_perm laws
  have hlen : (sort_files laws).length = laws.length := hperm.length_eq
  have hsne : sort_files laws ≠ [] := by
    intro h
    exact hne (List.Perm.eq_nil (h ▸ hperm).symm)
  refine ⟨?_, ?_, ?_, fun g g2 gs => rfl⟩
  · rw [download_all_pdfs_trace, pacings_groupLoop, hlen]
  · exact pacings_groupLoop_val delay (sort_files laws)
  · exact groupLoop_last_group delay (sort_files laws) hsne

/-- C6 witness: a two-group run has exactly one pacing delay of the
default five seconds and ends with a group event. -/
theorem C6_pacing_between_groups_witness :
    (pacingsOf (download_all_pdfs_trace ["a_1.json", "a_2.json"]
        DELAY_BETWEEN_LAWS)).length = 1
    ∧ (∃ g, (download_all_pdfs_trace ["a_1.json", "a_2.json"]
        DELAY_BETWEEN_LAWS).getLast? = some (.group g)) := by
  have h := C6_pacing_between_groups ["a_1.json", "a_2.json"]
    DELAY_BETWEEN_LAWS (by decide)
  exact ⟨h.1, h.2.2.1⟩

/- ------------------------------------------------------------------ -/
/- Claim C7                                                            -/
/- ------------------------------------------------------------------ -/

/-- The crafted detail list item of the claim: a primary anchor with
href `h`, text `t` and a nested annotation with advisory title `d`,
followed by a second anchor with href `p` and advisory title
`ptitle`. -/
def detailItem (t h d p ptitle : String) : HNode :=
  .elem "p" [] [
    .elem "a" [("href", h)] [.text t, .elem "abbr" [("title", d)] []],
    .elem "a" [("href", p), ("title", ptitle)] []]

/-- C7: a list item of the crafted shape — first anchor with href `h`
and text `t`, annotation with advisory title `d`, second anchor whose
advisory title contains the substring PDF and whose href is `p` — yields
exactly one DocumentRecord with the base-resolved links, the stripped
title and the description `d`; an item with no anchor yields zero
records; and with no annotation element the description is the empty
string. -/
theorem C7_detail_extraction (urljoin : String → String → String)
    (base t h d p ptitle s : String)
    (hpt : hasSubstr "PDF".data ptitle.data = true) :
    process_item urljoin base (detailItem t h d p ptitle)
      = .record ⟨urljoin base h, pyStripStr t, d, some (urljoin base p)⟩
    ∧ fetch_law_details_records urljoin base [detailItem t h d p ptitle]
        = some [⟨urljoin base h, pyStripStr t, d, some (urljoin base p)⟩]
    ∧ process_item urljoin base (.elem "p" [] [.text s]) = .skip
    ∧ fetch_law_details_records urljoin base [.elem "p" [] [.text s]] = some []
    ∧ process_item urljoin base (.elem "p" [] [.elem "a" [("href", h)] [.text t]])
        = .record ⟨urljoin base h, pyStripStr t, "", none⟩ := by
  have hne : ¬ ptitle.data = [] := by
    intro he
    rw [he] at hpt
    simp [hasSubstr] at hpt
  have hrec : process_item urljoin base (detailItem t h d p ptitle)
      = .record ⟨urljoin base h, pyStripStr t, d, some (urljoin base p)⟩ := by
    simp [process_item, detailItem, findAnchorHref, findTag, findAllTag,
      findPdfAnchor, matchingDesc, matchingHere, matchingList, attrOf,
      nodeAttr, nodeText, forestText, pdfTitleFilter, hne, hpt]
  have hskip : process_item urljoin base (.elem "p" [] [.text s]) = .skip := by
    simp [process_item, findAnchorHref, matchingDesc, matchingHere, matchingList]
  refine ⟨hrec, ?_, hskip, ?_, ?_⟩
  · simp [fetch_law_details_records, hrec]
  · simp [fetch_law_details_records, hskip]
  · simp [process_item, findAnchorHref, findTag, findAllTag, findPdfAnchor,
      matchingDesc, matchingHere, matchingList, attrOf, nodeAttr, nodeText,
      forestText, pdfTitleFilter]

/-- C7 witness: the extraction statement applied to the concrete item of
the spec, base resolution instantiated with string concatenation. -/
theorem C7_detail_extraction_witness :
    fetch_law_details_records (fun b r => b ++ r) "https://x/"
        [detailItem "Title X" "x.html" "Desc X" "x.pdf" "PDF"]
      = some [⟨"https://x/" ++ "x.html", pyStripStr "Title X", "Desc X",
          some ("https://x/" ++ "x.pdf")⟩] :=
  (C7_detail_extraction (fun b r => b ++ r) "https://x/" "Title X" "x.html"
    "Desc X" "x.pdf" "PDF" "s" (by decide)).2.1

/- ------------------------------------------------------------------ -/
/- Claim C8                                                            -/
/- ------------------------------------------------------------------ -/

/-- C9 counterexample: the claim says the pair of group identifier and
sanitised record title is a unique key, so no two distinct tasks write
the same destination path.  `sanitize_filename` maps both the slash and
the backslash to an underscore, so the two distinct titles `a/b` and
`a\b` of one group produce identical destination paths, and the run
writes that path twice. -/
theorem C9_sanitize_collision_counterexample :
    sanitize_filename "a/b" = sanitize_filename "a\\b"
    ∧ "a/b" ≠ "a\\b"
    ∧ destinationPath "data/pdf" "A" "a/b" = destinationPath "data/pdf" "A" "a\\b"
    ∧ allDestPaths "data/pdf" [("A", ["a/b", "a\\b"])]
        = [destinationPath "data/pdf" "A" "a/b",
           destinationPath "data/pdf" "A" "a/b"] := by
  decide

/-- C9 amended: destination paths are pairwise distinct only under the
additional assumptions the code leaves implicit — the group identifiers
of a run are pairwise distinct and separator free, and within every
group the sanitised titles are pairwise distinct (`sanitize_filename` is
not injective, so distinct records can collide otherwise). -/
theorem C9_unique_paths (pdf_dir : String)
    (groups : List (String × List String))
    (hd1 : pdf_dir ≠ "") (hd2 : pdf_dir.data.getLast? ≠ some '/')
    (hids : (groups.map Prod.fst).Nodup)
    (hidok : ∀ g ∈ groups, g.1 ≠ "" ∧ '/' ∉ g.1.data)
    (htit : ∀ g ∈ groups, (g.2.map sanitize_filename).Nodup) :
    (allDestPaths pdf_dir groups).Nodup :=
  allDestPaths_nodup pdf_dir groups hd1 hd2 hids hidok htit

/-- C9 witness: the amended statement applied to a concrete two-group
run with distinct sanitised titles. -/
theorem C9_unique_paths_witness :
    (allDestPaths "data/pdf" [("A", ["law one", "law two"]), ("2", ["law one"])]).Nodup :=
  C9_unique_paths "data/pdf" [("A", ["law one", "law two"]), ("2", ["law one"])]
    (by decide) (by decide) (by decide) (by decide) (by decide)

/- ------------------------------------------------------------------ -/
/- Claim C10                                                           -/
/- ------------------------------------------------------------------ -/

/-- C10: whenever the response of an invocation of
`download_single_pdf` carries a status other than 200 — whatever the
`retries` and `max_retries` arguments — the task logs the failure and
returns normally: the whole trace is acquire, attempt, log, release,
with no file write, and the result is the permanent failure, not an
exception. -/
theorem C10_non200_no_write (b : Nat → GetOutcome) (r c mr : Nat) (body : String)
    (hb : b r = .resp c body) (hc : c ≠ 200) :
    (download_single_pdf b r mr).1
        = [.acquire, .getAttempt r, .logStatusFail c, .release]
    ∧ writesOf (download_single_pdf b r mr).1 = 0
    ∧ (download_single_pdf b r mr).2 = .permanentlyFailed := by
  refine ⟨?_, ?_, ?_⟩ <;> simp [download_single_pdf, hb, hc, writesOf]

/-- C10 witness: the statement applied to the behaviour answering 404 at
every attempt. -/
theorem C10_non200_no_write_witness :
    (download_single_pdf status404Behavior 0 5).1
        = [.acquire, .getAttempt 0, .logStatusFail 404, .release]
    ∧ writesOf (download_single_pdf status404Behavior 0 5).1 = 0
    ∧ (download_single_pdf status404Behavior 0 5).2 = .permanentlyFailed :=
  C10_non200_no_write status404Behavior 0 404 5 "" rfl (by decide)
